import Mathlib

/-!
Verification of the control_steamdeck teleoperation bridge.

This file shallowly embeds the core of the repository
(`main.py`, `lora.py`, `joystick.py`, `telemetry_ws.py`) in Lean 4:
* `FrameHub` (main.py lines 27-51): the single-slot latest-value frame
  distributor; frames are identified by their publish index (a `Nat`),
  since the code treats the JPEG bytes as opaque.
* `link_quality` / `lora_connected` / `tx_rate_hz` (main.py lines 145-161,
  mirrored by telemetry_ws.py): link-health computations over timestamps.
  Python floats are embedded as `ℚ`; Python's `round` is embedded as
  Mathlib's `round` (the two differ only at exact half-integer ties,
  which none of the statements below depend on).
* the mode-manager hold-to-toggle combo (main.py lines 269-299).
* one tick of `sender_task` (main.py lines 117-141) together with
  `LoraLink.write_line` (lora.py lines 65-71) and
  `GamepadReader._normalize` (joystick.py lines 87-94).
* the best-effort telemetry fanout (main.py lines 318-337).
-/

/-! ## FrameHub (main.py lines 27-51) -/

/-- State of `FrameHub`: `latest_jpeg` (kept forever once set) and the
size-1 queue `q`, modelled as at most one pending frame.  Frames are
numbered by publish order; `count` is the number of publishes so far. -/
structure Hub where
  latest : Option ℕ
  pending : Option ℕ
  count : ℕ
  deriving DecidableEq, Repr

/-- The hub as constructed in `FrameHub.__init__`: no latest frame, empty
queue. -/
def hubStart : Hub := ⟨none, none, 0⟩

/-- `FrameHub.publish`: unconditionally replace `latest_jpeg`; then
`put_nowait` into the size-1 queue, and when the queue is full the old
entry is drained (`get_nowait`) and the fresh frame is put instead — so
after `publish` the pending slot always holds the fresh frame. -/
def hubPublish (h : Hub) : Hub :=
  { latest := some h.count, pending := some h.count, count := h.count + 1 }

/-- Result of `FrameHub.next`: either the call returns a value
(`some frame`, or `none` when it falls back to an empty `latest_jpeg`),
or it suspends indefinitely on `q.get()` (no-timeout call with an empty
queue). -/
inductive NextRes where
  | value : Option ℕ → NextRes
  | blocks : NextRes
  deriving DecidableEq, Repr

/-- `FrameHub.next(timeout)`: take the pending frame if one is queued;
otherwise, with a finite timeout, `asyncio.wait_for` raises
`TimeoutError` and the handler returns `latest_jpeg`; with
`timeout=None`, `q.get()` suspends until a publish hands a frame off. -/
def hubNext (h : Hub) (timeout : Option ℚ) : NextRes × Hub :=
  match h.pending with
  | some f => (.value (some f), { h with pending := none })
  | none =>
    match timeout with
    | some _ => (.value h.latest, h)
    | none => (.blocks, h)

/-- Operations interleaved on the hub: a producer `publish` or a consumer
`next` call (with a finite timeout, so that it returns in-window). -/
inductive HubOp where
  | publish
  | next
  deriving DecidableEq, Repr

/-- Run a sequence of interleaved hub operations from a given state. -/
def hubRun : List HubOp → Hub → Hub
  | [], h => h
  | .publish :: ops, h => hubRun ops (hubPublish h)
  | .next :: ops, h => hubRun ops (hubNext h (some 1)).2

/-- Number of `publish` operations in a trace. -/
def countPub : List HubOp → ℕ
  | [] => 0
  | .publish :: ops => countPub ops + 1
  | .next :: ops => countPub ops

/-- Invariant of the hub reachable states: `count` publishes have
happened, `latest` holds the last published frame (if any), and the
pending slot is empty or also holds the last published frame. -/
def hubInv (h : Hub) : Prop :=
  (h.count = 0 → h.latest = none ∧ h.pending = none) ∧
    (0 < h.count →
      h.latest = some (h.count - 1) ∧
        (h.pending = none ∨ h.pending = some (h.count - 1)))

lemma hubInv_start : hubInv hubStart := by
  constructor
  · intro _; exact ⟨rfl, rfl⟩
  · intro h; simp [hubStart] at h

lemma hubInv_publish {h : Hub} (_ : hubInv h) : hubInv (hubPublish h) := by
  constructor
  · intro hc; simp [hubPublish] at hc
  · intro _; simp [hubPublish]

lemma hubInv_next {h : Hub} (hi : hubInv h) (t : Option ℚ) :
    hubInv (hubNext h t).2 := by
  obtain ⟨h0, hp⟩ := hi
  unfold hubNext
  cases hpd : h.pending with
  | some f =>
    refine ⟨fun hc => ⟨(h0 hc).1, rfl⟩, fun hc => ⟨(hp hc).1, Or.inl rfl⟩⟩
  | none =>
    cases t with
    | some x => exact ⟨h0, hp⟩
    | none => exact ⟨h0, hp⟩

lemma hubRun_inv (ops : List HubOp) (h : Hub) (hi : hubInv h) :
    hubInv (hubRun ops h) := by
  induction ops generalizing h with
  | nil => exact hi
  | cons op ops ih =>
    cases op with
    | publish => exact ih _ (hubInv_publish hi)
    | next => exact ih _ (hubInv_next hi _)

lemma hubRun_count (ops : List HubOp) (h : Hub) :
    (hubRun ops h).count = h.count + countPub ops := by
  induction ops generalizing h with
  | nil => simp [hubRun, countPub]
  | cons op ops ih =>
    cases op with
    | publish =>
      simp only [hubRun, countPub, ih]
      simp [hubPublish]
      ring
    | next =>
      simp only [hubRun, countPub, ih]
      congr 1
      unfold hubNext
      cases h.pending <;> rfl

/-- C1.  FrameHub freshness: after any interleaving of publishes and
consumer `next` calls in which frame `n` was published and frame `n+1`
was not yet, a further `next` call returns frame `n` or a later frame
(in fact frame `n` itself, the most recent one), never an earlier frame:
`publish` unconditionally replaces `latest` and overwrites any stale
pending frame, so both hand-off paths of `next` yield the newest frame. -/
theorem frameHub_freshness (ops : List HubOp) (n : ℕ) (t : ℚ)
    (hn : countPub ops = n + 1) :
    ∃ m : ℕ, (hubNext (hubRun ops hubStart) (some t)).1 = .value (some m) ∧
      n ≤ m := by
  have hinv := hubRun_inv ops hubStart hubInv_start
  have hcount : (hubRun ops hubStart).count = n + 1 := by
    rw [hubRun_count, hn]; simp [hubStart]
  set h := hubRun ops hubStart with hh
  have hpos : 0 < h.count := by omega
  obtain ⟨hl, hpd⟩ := hinv.2 hpos
  have hsub : h.count - 1 = n := by omega
  refine ⟨n, ?_, le_refl n⟩
  unfold hubNext
  rcases hpd with hnone | hsome
  · rw [hnone]
    simp only [hl, hsub]
  · rw [hsome]
    simp only [hsub]

/-- Witness for C1: the trace publish, next, publish has published frame 1
and a subsequent next call returns frame 1. -/
theorem frameHub_freshness_witness :
    ∃ m : ℕ,
      (hubNext (hubRun [.publish, .next, .publish] hubStart) (some 1)).1 =
        .value (some m) ∧ 1 ≤ m :=
  frameHub_freshness [.publish, .next, .publish] 1 1 rfl

/-- C8.  Before any `publish`, `next` with a finite timeout returns the
unavailable result (`none`, because `latest_jpeg` is also empty) once the
timeout fires, and `next` with no timeout suspends indefinitely on
`q.get()`. -/
theorem next_before_publish (t : ℚ) :
    (hubNext hubStart (some t)).1 = .value none ∧
      (hubNext hubStart none).1 = .blocks :=
  ⟨rfl, rfl⟩

/-! ## Link health (main.py lines 145-161, telemetry_ws.py lines 76-111) -/

/-- `lora_connected` (main.py line 145): the heartbeat age is strictly
below the timeout. -/
def lora_connected (now last_hb hb_timeout : ℚ) : Bool :=
  decide (now - last_hb < hb_timeout)

/-- Core of `link_quality` (main.py lines 148-155) as a function of the
heartbeat age: 100 for a fresh heartbeat (age at most 20% of the
timeout), 0 at or beyond the timeout, and in between the linear
interpolation `100 * (1 - frac)` rounded and clamped to [0, 100]. -/
def link_quality_age (hb_timeout age : ℚ) : ℤ :=
  if age ≤ hb_timeout * (2 / 10) then 100
  else if hb_timeout ≤ age then 0
  else
    max 0 (min 100
      (round ((100 : ℚ) *
        (1 - (age - hb_timeout * (2 / 10)) / (hb_timeout * (8 / 10))))))

/-- `link_quality` (main.py line 148): the age is `time.time() - last_hb`. -/
def link_quality (now last_hb hb_timeout : ℚ) : ℤ :=
  link_quality_age hb_timeout (now - last_hb)

/-- Modelled from the spec: the piecewise-linear reference mapping of
section 4.3 — `age ≤ 0.2·timeout → 100`; `age ≥ timeout → 0`; otherwise
`100 · (1 − (age − 0.2·timeout)/(0.8·timeout))`, rounded to nearest
integer, clamped to [0,100]. -/
def link_quality_ref (hb_timeout age : ℚ) : ℤ :=
  if age ≤ hb_timeout / 5 then 100
  else if hb_timeout ≤ age then 0
  else
    max 0 (min 100
      (round ((100 : ℚ) * (1 - (age - hb_timeout / 5) / (hb_timeout * 4 / 5)))))

lemma round_mono {x y : ℚ} (h : x ≤ y) : round x ≤ round y := by
  rw [round_eq, round_eq]
  exact Int.floor_le_floor (by linarith)

lemma link_quality_age_eq_ref (t age : ℚ) :
    link_quality_age t age = link_quality_ref t age := by
  unfold link_quality_age link_quality_ref
  have h1 : t * (2 / 10) = t / 5 := by ring
  have h2 : t * (8 / 10) = t * 4 / 5 := by ring
  rw [h1, h2]

lemma link_quality_age_nonneg (t age : ℚ) : 0 ≤ link_quality_age t age := by
  unfold link_quality_age
  split_ifs
  · norm_num
  · norm_num
  · exact le_max_left 0 _

lemma link_quality_age_le_100 (t age : ℚ) : link_quality_age t age ≤ 100 := by
  unfold link_quality_age
  split_ifs
  · norm_num
  · norm_num
  · exact max_le (by norm_num) (min_le_left 100 _)

lemma link_quality_age_antitone (t : ℚ) (ht : 0 < t) {a b : ℚ} (hab : a ≤ b) :
    link_quality_age t b ≤ link_quality_age t a := by
  have hden : 0 < t * (8 / 10) := by nlinarith
  rcases le_or_lt a (t * (2 / 10)) with ha | ha
  · -- the heartbeat is fresh at age a: quality there is the maximal 100
    have hqa : link_quality_age t a = 100 := by
      unfold link_quality_age
      rw [if_pos ha]
    rw [hqa]
    exact link_quality_age_le_100 t b
  · have hbL : ¬ b ≤ t * (2 / 10) := not_le.mpr (lt_of_lt_of_le ha hab)
    rcases le_or_lt t a with ha2 | ha2
    · -- both ages at or beyond the timeout: quality is 0 at both
      have hqa : link_quality_age t a = 0 := by
        unfold link_quality_age
        rw [if_neg (not_le.mpr ha), if_pos ha2]
      have hqb : link_quality_age t b = 0 := by
        unfold link_quality_age
        rw [if_neg hbL, if_pos (le_trans ha2 hab)]
      rw [hqa, hqb]
    · rcases le_or_lt t b with hb2 | hb2
      · -- b at or beyond the timeout: 0 is a lower bound of the clamp at a
        have hqb : link_quality_age t b = 0 := by
          unfold link_quality_age
          rw [if_neg hbL, if_pos hb2]
        rw [hqb]
        exact link_quality_age_nonneg t a
      · -- both in the interpolation region
        have hqa : link_quality_age t a =
            max 0 (min 100
              (round ((100 : ℚ) *
                (1 - (a - t * (2 / 10)) / (t * (8 / 10)))))) := by
          unfold link_quality_age
          rw [if_neg (not_le.mpr ha), if_neg (not_le.mpr ha2)]
        have hqb : link_quality_age t b =
            max 0 (min 100
              (round ((100 : ℚ) *
                (1 - (b - t * (2 / 10)) / (t * (8 / 10)))))) := by
          unfold link_quality_age
          rw [if_neg hbL, if_neg (not_le.mpr hb2)]
        rw [hqa, hqb]
        have hdiv : (a - t * (2 / 10)) / (t * (8 / 10)) ≤
            (b - t * (2 / 10)) / (t * (8 / 10)) := by
          rw [div_le_div_iff₀ hden hden]
          nlinarith
        have hmono : (100 : ℚ) * (1 - (b - t * (2 / 10)) / (t * (8 / 10))) ≤
            (100 : ℚ) * (1 - (a - t * (2 / 10)) / (t * (8 / 10))) := by
          linarith
        exact max_le_max (le_refl 0)
          (min_le_min (le_refl 100) (round_mono hmono))

/-- C2.  `link_quality` equals the piecewise-linear reference of the
spec: 100 when the age is at most 20% of the (positive) timeout, 0 at or
beyond the timeout, and otherwise the rounded, clamped linear
interpolation; consequently quality at age 0 is 100, quality at the
timeout is 0, the value always lies in [0, 100], and quality is
non-increasing in the age. -/
theorem link_quality_matches_ref (t : ℚ) (ht : 0 < t) :
    (∀ age, link_quality_age t age = link_quality_ref t age) ∧
      link_quality_age t 0 = 100 ∧
      link_quality_age t t = 0 ∧
      (∀ a b : ℚ, a ≤ b → link_quality_age t b ≤ link_quality_age t a) ∧
      (∀ age, 0 ≤ link_quality_age t age ∧ link_quality_age t age ≤ 100) := by
  refine ⟨link_quality_age_eq_ref t, ?_, ?_, fun a b hab =>
    link_quality_age_antitone t ht hab, fun age =>
    ⟨link_quality_age_nonneg t age, link_quality_age_le_100 t age⟩⟩
  · unfold link_quality_age
    rw [if_pos (by nlinarith)]
  · unfold link_quality_age
    rw [if_neg (by nlinarith), if_pos (le_refl t)]

/-- Witness for C2 at the default heartbeat timeout of 15 seconds: the
code agrees with the reference at age 12 and the endpoint values hold. -/
theorem link_quality_matches_ref_witness :
    link_quality_age 15 12 = link_quality_ref 15 12 ∧
      link_quality_age 15 0 = 100 ∧ link_quality_age 15 15 = 0 :=
  ⟨(link_quality_matches_ref 15 (by norm_num)).1 12,
    (link_quality_matches_ref 15 (by norm_num)).2.1,
    (link_quality_matches_ref 15 (by norm_num)).2.2.1⟩

/-- C9, counterexample.  `LoraLink.__init__` (lora.py line 20) sets
`last_hb = time.time()`, i.e. the construction time (here 0).  At
`now = 14.97`, within the default 15-second timeout and before any
heartbeat, `lora_connected` is true — but `link_quality` is 0, not
positive: the interpolated value `100·(1−(14.97−3)/12) = 0.25` rounds to
0.  So the claim that the quality is positive for every time within the
timeout of construction is false. -/
theorem startup_quality_zero_cex :
    lora_connected (1497 / 100) 0 15 = true ∧
      (1497 / 100 : ℚ) - 0 < 15 ∧
      link_quality (1497 / 100) 0 15 = 0 := by
  refine ⟨by norm_num [lora_connected], by norm_num, ?_⟩
  unfold link_quality link_quality_age
  rw [if_neg (by norm_num), if_neg (by norm_num)]
  have : ((100 : ℚ) *
      (1 - ((1497 / 100 : ℚ) - 0 - 15 * (2 / 10)) / (15 * (8 / 10)))) =
      1 / 4 := by norm_num
  rw [this, round_eq]
  norm_num

/-- C9, amended.  `LoraLink.__init__` initializes `last_hb` to the
construction time `c` rather than a never-seen marker, so before any
heartbeat is received: for every time less than `hb_timeout` after
construction `lora_connected` is true, `link_quality` is 100 for times
within 20% of the timeout of construction (in particular at construction
itself) and never negative — the link is reported healthy at startup
without any received heartbeat. -/
theorem startup_link_healthy (t c now : ℚ) (ht : 0 < t) :
    (now - c < t → lora_connected now c t = true) ∧
      (now - c ≤ t * (2 / 10) → link_quality now c t = 100) ∧
      lora_connected c c t = true ∧
      link_quality c c t = 100 ∧
      0 ≤ link_quality now c t := by
  refine ⟨fun h => by simp [lora_connected, h], fun h => ?_, ?_, ?_,
    link_quality_age_nonneg t (now - c)⟩
  · unfold link_quality link_quality_age
    rw [if_pos h]
  · simp [lora_connected, ht]
  · unfold link_quality link_quality_age
    rw [if_pos (by nlinarith)]

/-- Witness for C9 (amended) at timeout 15, construction time 0, now 10:
the link is reported connected with a nonnegative quality. -/
theorem startup_link_healthy_witness :
    lora_connected 10 0 15 = true ∧ link_quality 0 0 15 = 100 :=
  ⟨((startup_link_healthy 15 0 10 (by norm_num)).1 (by norm_num)),
    (startup_link_healthy 15 0 10 (by norm_num)).2.2.2.1⟩

/-! ## Command sender (main.py lines 111-142) -/

/-- Python's `round(x, 3)`: round to 3 decimal places.  Ties are rounded
with Mathlib's `round`; no statement below depends on tie direction. -/
def round3 (x : ℚ) : ℚ := (round (x * 1000) : ℤ) / 1000

/-- The two speed scales of the mode config (config_loader.py
`ModeCfg.speed_default_scale` / `speed_plus_scale`; defaults 0.70 and
1.00, but any value can be configured). -/
structure ModeCfg where
  speed_default_scale : ℚ
  speed_plus_scale : ℚ
  deriving DecidableEq, Repr

/-- The mutable `state` dict fields touched by `sender_task`. -/
structure SenderState where
  sleep : Bool
  speed_plus : Bool
  v_eff : ℚ
  w_eff : ℚ
  last_tx_time : ℚ
  tx_times : List ℚ
  deriving DecidableEq, Repr

/-- One iteration of the `sender_task` loop body (main.py lines 121-137):
read the pad, scale `v` by the mode-dependent factor and round to 3
decimals, pass `w` through unscaled, always store both into the state;
then, unless sleeping or the heartbeat age exceeds the timeout, emit the
`(v_eff, w_eff)` line and record `now` in the tx window.  The second
component is the written serial line payload, `none` when gated off. -/
def sender_tick (cfg : ModeCfg) (hb_timeout now last_hb v_raw w_raw : ℚ)
    (s : SenderState) : SenderState × Option (ℚ × ℚ) :=
  let scale := if s.speed_plus then cfg.speed_plus_scale
    else cfg.speed_default_scale
  let v_eff := round3 (v_raw * scale)
  let w_eff := w_raw
  let s1 := { s with v_eff := v_eff, w_eff := w_eff }
  if s1.sleep then (s1, none)
  else if hb_timeout < now - last_hb then (s1, none)
  else
    ({ s1 with last_tx_time := now, tx_times := s1.tx_times ++ [now] },
      some (v_eff, w_eff))

/-- C4.  Sleep gating is pure transmit suppression: on a tick with
`sleep` set, no serial line is produced and the resulting state is the
old state with only `v_eff` updated to `round(v_raw * scale, 3)` and
`w_eff` updated to `w_raw` — in particular `tx_times` and
`last_tx_time` are untouched. -/
theorem sleep_gating_pure (cfg : ModeCfg)
    (hb_timeout now last_hb v_raw w_raw : ℚ) (s : SenderState)
    (hs : s.sleep = true) :
    sender_tick cfg hb_timeout now last_hb v_raw w_raw s =
      ({ s with
          v_eff := round3 (v_raw *
            (if s.speed_plus then cfg.speed_plus_scale
              else cfg.speed_default_scale)),
          w_eff := w_raw }, none) := by
  unfold sender_tick
  simp only [hs, if_true]

/-- Witness for C4: a sleeping state with the stick at (1/2, 1/4) and the
default 0.70 scale produces no line and updates only the effective
axes. -/
theorem sleep_gating_pure_witness :
    sender_tick ⟨7 / 10, 1⟩ 15 100 99 (1 / 2) (1 / 4)
        ⟨true, false, 0, 0, 0, []⟩ =
      (⟨true, false, round3 ((1 / 2) * (7 / 10)), 1 / 4, 0, []⟩, none) := by
  rw [sleep_gating_pure ⟨7 / 10, 1⟩ 15 100 99 (1 / 2) (1 / 4)
    ⟨true, false, 0, 0, 0, []⟩ rfl]
  rfl

/-- C10.  Boundary mismatch between gating and connectivity: the sender
skips only when the heartbeat age is strictly greater than the timeout,
while `lora_connected` requires the age to be strictly less; on a
non-sleeping tick where the age equals the timeout exactly, a line is
still transmitted although `lora_connected` is false and `link_quality`
is 0. -/
theorem heartbeat_boundary_mismatch (cfg : ModeCfg)
    (hb_timeout now last_hb v_raw w_raw : ℚ) (s : SenderState)
    (ht : 0 < hb_timeout) (hs : s.sleep = false)
    (hage : now - last_hb = hb_timeout) :
    (sender_tick cfg hb_timeout now last_hb v_raw w_raw s).2 =
        some (round3 (v_raw *
          (if s.speed_plus then cfg.speed_plus_scale
            else cfg.speed_default_scale)), w_raw) ∧
      lora_connected now last_hb hb_timeout = false ∧
      link_quality now last_hb hb_timeout = 0 := by
  refine ⟨?_, ?_, ?_⟩
  · unfold sender_tick
    simp only [hs, if_false, hage, Bool.false_eq_true, lt_self_iff_false,
      if_true]
  · simp [lora_connected, hage]
  · unfold link_quality link_quality_age
    rw [hage, if_neg (by nlinarith), if_pos (le_refl hb_timeout)]

/-- Witness for C10 at the default config: timeout 15, age exactly 15,
centered stick — a (0, 0) line goes out while the link reads
disconnected with quality 0. -/
theorem heartbeat_boundary_mismatch_witness :
    (sender_tick ⟨7 / 10, 1⟩ 15 115 100 0 0
        ⟨false, false, 0, 0, 0, []⟩).2 =
        some (round3 (0 * (7 / 10)), 0) ∧
      lora_connected 115 100 15 = false ∧
      link_quality 115 100 15 = 0 := by
  have h := heartbeat_boundary_mismatch ⟨7 / 10, 1⟩ 15 115 100 0 0
    ⟨false, false, 0, 0, 0, []⟩ (by norm_num) rfl (by norm_num)
  exact ⟨h.1, h.2.1, h.2.2⟩

/-! ## TX-rate trailing window (main.py lines 157-161) -/

/-- Python's `round(x, 2)`: round to 2 decimal places. -/
def round2 (x : ℚ) : ℚ := (round (x * 100) : ℤ) / 100

/-- The `while state_tx_times and (now - state_tx_times[0] > 3.0):
popleft()` loop of `tx_rate_hz`: pop entries older than 3 seconds from
the front of the deque, stopping at the first recent one. -/
def pruneOld (now : ℚ) : List ℚ → List ℚ
  | [] => []
  | x :: xs => if 3 < now - x then pruneOld now xs else x :: xs

/-- `tx_rate_hz` (main.py lines 157-161): prune the window, then return
`count / 3.0` rounded to 2 decimals. -/
def tx_rate_hz (now : ℚ) (tx_times : List ℚ) : ℚ :=
  round2 (((pruneOld now tx_times).length : ℚ) / 3)

lemma pruneOld_eq_dropWhile (now : ℚ) (l : List ℚ) :
    pruneOld now l = l.dropWhile (fun x => decide (3 < now - x)) := by
  induction l with
  | nil => rfl
  | cons x xs ih =>
    unfold pruneOld
    rw [List.dropWhile_cons]
    by_cases h : 3 < now - x
    · simp [h, ih]
    · simp [h]

/-- C6.  `tx_rate_hz` equals the trailing-window reference: it drops
every timestamp older than 3 seconds from the front of the window and
returns the remaining count divided by 3.0, rounded to 2 decimals; on
the window `{t, t+0.1, t+0.2}` it returns 1.0 at `now = t+0.25` (nothing
expired) and 0.0 at `now = t+3.5` (everything expired). -/
theorem tx_rate_matches_ref (now : ℚ) (l : List ℚ) (t : ℚ) :
    pruneOld now l = l.dropWhile (fun x => decide (3 < now - x)) ∧
      tx_rate_hz now l =
        round2 (((l.dropWhile (fun x => decide (3 < now - x))).length : ℚ)
          / 3) ∧
      tx_rate_hz (t + 25 / 100) [t, t + 1 / 10, t + 2 / 10] = 1 ∧
      tx_rate_hz (t + 35 / 10) [t, t + 1 / 10, t + 2 / 10] = 0 := by
  refine ⟨pruneOld_eq_dropWhile now l, by
    rw [tx_rate_hz, pruneOld_eq_dropWhile], ?_, ?_⟩
  · have h1 : ¬ (3 : ℚ) < t + 25 / 100 - t := by ring_nf; norm_num
    unfold tx_rate_hz pruneOld
    rw [if_neg h1]
    unfold round2
    norm_num
  · have h1 : (3 : ℚ) < t + 35 / 10 - t := by ring_nf; norm_num
    have h2 : (3 : ℚ) < t + 35 / 10 - (t + 1 / 10) := by ring_nf; norm_num
    have h3 : (3 : ℚ) < t + 35 / 10 - (t + 2 / 10) := by ring_nf; norm_num
    unfold tx_rate_hz pruneOld
    rw [if_pos h1]
    unfold pruneOld
    rw [if_pos h2]
    unfold pruneOld
    rw [if_pos h3]
    unfold pruneOld round2
    norm_num

/-! ## Hold-to-toggle mode combos (main.py lines 269-299) -/

/-- The per-combo state kept in the `state` dict: the hold-start
timestamp (`sleep_combo_t0` / `speed_combo_t0`, `None` when not
holding), the `fired` debounce flag, and the toggled mode flag itself
(`sleep` / `speed_plus`). -/
structure ComboState where
  t0 : Option ℚ
  fired : Bool
  flag : Bool
  deriving DecidableEq, Repr

/-- One `mode_manager` poll for one combo (main.py lines 275-285): when
both watched buttons are down, start the timer if unset; else, if not
yet fired and the elapsed time reached the hold duration, toggle the
flag and latch `fired`; when either button is up, clear the timer and
the `fired` flag unconditionally. -/
def combo_step (hold now : ℚ) (down : Bool) (s : ComboState) : ComboState :=
  if down then
    match s.t0 with
    | none => { s with t0 := some now, fired := false }
    | some a =>
      if s.fired = false ∧ hold ≤ now - a then
        { s with fired := true, flag := !s.flag }
      else s
  else { s with t0 := none, fired := false }

/-- Run a sequence of polls, each a (timestamp, both-buttons-down) pair,
counting how many polls toggled the flag. -/
def combo_run (hold : ℚ) : List (ℚ × Bool) → ComboState → ComboState × ℕ
  | [], s => (s, 0)
  | (now, down) :: rest, s =>
    let s1 := combo_step hold now down s
    let r := combo_run hold rest s1
    (r.1, (if s1.flag = s.flag then 0 else 1) + r.2)

/-- Polls on which both combo buttons are held down. -/
def downPolls (ts : List ℚ) : List (ℚ × Bool) := ts.map (fun x => (x, true))

lemma combo_step_up (hold now : ℚ) (s : ComboState) :
    combo_step hold now false s = { s with t0 := none, fired := false } := by
  unfold combo_step
  rw [if_neg (show ¬(false = true) by simp)]

lemma combo_step_down_idle (hold now : ℚ) (s : ComboState)
    (h : s.t0 = none) :
    combo_step hold now true s = { s with t0 := some now, fired := false } := by
  unfold combo_step
  rw [if_pos (show (true = true) from rfl), h]

lemma combo_step_down_latched (hold now a : ℚ) (f : Bool) :
    combo_step hold now true ⟨some a, true, f⟩ = ⟨some a, true, f⟩ := by
  unfold combo_step
  rw [if_pos (show (true = true) from rfl)]
  exact if_neg (by simp)

lemma combo_step_down_armed (hold now a : ℚ) (f : Bool) :
    combo_step hold now true ⟨some a, false, f⟩ =
      if hold ≤ now - a then ⟨some a, true, !f⟩ else ⟨some a, false, f⟩ := by
  unfold combo_step
  rw [if_pos (show (true = true) from rfl)]
  by_cases h : hold ≤ now - a
  · rw [if_pos h]
    exact if_pos ⟨rfl, h⟩
  · rw [if_neg h]
    exact if_neg (fun hc => h hc.2)

lemma downPolls_cons (x : ℚ) (xs : List ℚ) :
    downPolls (x :: xs) = (x, true) :: downPolls xs := rfl

lemma combo_run_cons (hold now : ℚ) (down : Bool)
    (rest : List (ℚ × Bool)) (s : ComboState) :
    combo_run hold ((now, down) :: rest) s =
      ((combo_run hold rest (combo_step hold now down s)).1,
        (if (combo_step hold now down s).flag = s.flag then 0 else 1) +
          (combo_run hold rest (combo_step hold now down s)).2) := rfl

lemma combo_run_latched (hold : ℚ) (ts : List ℚ) (a : ℚ) (f : Bool) :
    combo_run hold (downPolls ts) ⟨some a, true, f⟩ =
      (⟨some a, true, f⟩, 0) := by
  induction ts with
  | nil => rfl
  | cons x xs ih =>
    rw [downPolls_cons, combo_run_cons, combo_step_down_latched, ih]
    simp

lemma combo_run_armed (hold : ℚ) (ts : List ℚ) (a : ℚ) (f : Bool) :
    combo_run hold (downPolls ts) ⟨some a, false, f⟩ =
      if ∃ x ∈ ts, hold ≤ x - a then (⟨some a, true, !f⟩, 1)
      else (⟨some a, false, f⟩, 0) := by
  induction ts with
  | nil => simp [downPolls, combo_run]
  | cons x xs ih =>
    rw [downPolls_cons, combo_run_cons, combo_step_down_armed]
    by_cases hx : hold ≤ x - a
    · rw [if_pos hx]
      have hex : ∃ y ∈ x :: xs, hold ≤ y - a :=
        ⟨x, List.mem_cons_self x xs, hx⟩
      rw [if_pos hex, combo_run_latched hold xs a (!f)]
      have hne : ¬((⟨some a, true, !f⟩ : ComboState).flag = f) := by
        cases f <;> simp
      rw [if_neg hne]
      simp
    · rw [if_neg hx, ih]
      by_cases hex : ∃ y ∈ xs, hold ≤ y - a
      · have hex' : ∃ y ∈ x :: xs, hold ≤ y - a := by
          obtain ⟨y, hy, hyl⟩ := hex
          exact ⟨y, List.mem_cons_of_mem x hy, hyl⟩
        rw [if_pos hex, if_pos hex']
        simp
      · have hex' : ¬∃ y ∈ x :: xs, hold ≤ y - a := by
          rintro ⟨y, hy, hyl⟩
          rcases List.mem_cons.mp hy with rfl | hy'
          · exact hx hyl
          · exact hex ⟨y, hy', hyl⟩
        rw [if_neg hex, if_neg hex']
        simp

/-- C3.  Hold-to-toggle fires exactly once per qualifying hold: starting
from an idle combo (`t0 = None`), a run of down-polls beginning at time
`t` toggles the flag exactly once when some later poll reaches the hold
duration (ending with `fired` latched, which blocks further toggles),
and exactly zero times when every poll stays below the hold duration;
a poll with either button up resets the timer and `fired` flag (leaving
the flag alone), so a subsequent re-hold starts from idle and can fire
again. -/
theorem combo_fires_once (hold t : ℚ) (rest : List ℚ) (s : ComboState)
    (h0 : s.t0 = none) :
    ((∃ x ∈ rest, hold ≤ x - t) →
        combo_run hold (downPolls (t :: rest)) s =
          (⟨some t, true, !s.flag⟩, 1)) ∧
      ((∀ x ∈ rest, x - t < hold) →
        combo_run hold (downPolls (t :: rest)) s =
          (⟨some t, false, s.flag⟩, 0)) ∧
      (∀ (now : ℚ) (s' : ComboState),
        combo_step hold now false s' =
          { s' with t0 := none, fired := false }) := by
  have hrun : combo_run hold (downPolls (t :: rest)) s =
      ((combo_run hold (downPolls rest) ⟨some t, false, s.flag⟩).1,
        (combo_run hold (downPolls rest) ⟨some t, false, s.flag⟩).2) := by
    rw [downPolls_cons, combo_run_cons, combo_step_down_idle hold t s h0]
    simp
  refine ⟨fun hex => ?_, fun hlt => ?_, fun now s' => combo_step_up hold now s'⟩
  · rw [hrun, combo_run_armed, if_pos hex]
  · rw [hrun, combo_run_armed,
      if_neg (by rintro ⟨x, hx, hxl⟩; exact absurd hxl (not_le.mpr (hlt x hx)))]

/-- Witness for C3: with hold 3, polls at times 0, 1, 3.5 all down,
starting idle with the flag off, the flag toggles exactly once and
`fired` latches. -/
theorem combo_fires_once_witness :
    combo_run 3 (downPolls [0, 1, 7 / 2]) ⟨none, false, false⟩ =
      (⟨some 0, true, true⟩, 1) :=
  (combo_fires_once 3 0 [1, 7 / 2] ⟨none, false, false⟩ rfl).1
    ⟨7 / 2, by simp, by norm_num⟩

/-! ## Telemetry broadcast fanout (main.py lines 318-337) -/

/-- One `telemetry_broadcaster` fanout tick (main.py lines 322-336):
iterate over a snapshot `list(telemetry_clients)` of the client set;
for each client, `_send_one` tries to send the message — on failure it
closes the client and discards it from the set, on success the client
receives the snapshot.  Clients are `ℕ` handles; `sendFails c = true`
models `client.send` raising for `c`.  Result: (the client set after the
tick, the clients that received the snapshot, in send order). -/
def broadcast (sendFails : ℕ → Bool) (clients : List ℕ) :
    List ℕ × List ℕ :=
  clients.foldl
    (fun acc c =>
      if sendFails c then (acc.1.erase c, acc.2) else (acc.1, acc.2 ++ [c]))
    (clients, [])

lemma broadcast_foldl_fst (sendFails : ℕ → Bool) (xs rem del : List ℕ) :
    (xs.foldl
        (fun acc c =>
          if sendFails c then (acc.1.erase c, acc.2)
          else (acc.1, acc.2 ++ [c]))
        (rem, del)).1 =
      xs.foldl (fun r c => if sendFails c then r.erase c else r) rem := by
  induction xs generalizing rem del with
  | nil => rfl
  | cons x xs ih =>
    simp only [List.foldl_cons]
    by_cases hx : sendFails x
    · rw [if_pos hx, if_pos hx, ih]
    · rw [if_neg hx, if_neg hx, ih]

lemma broadcast_foldl_snd (sendFails : ℕ → Bool) (xs rem del : List ℕ) :
    (xs.foldl
        (fun acc c =>
          if sendFails c then (acc.1.erase c, acc.2)
          else (acc.1, acc.2 ++ [c]))
        (rem, del)).2 =
      del ++ xs.filter (fun c => !sendFails c) := by
  induction xs generalizing rem del with
  | nil => simp
  | cons x xs ih =>
    simp only [List.foldl_cons, List.filter_cons]
    by_cases hx : sendFails x
    · rw [if_pos hx]
      simp only [hx, Bool.not_true, ih]
      simp
    · rw [if_neg hx]
      simp only [hx, Bool.not_false, ih]
      simp

lemma erase_foldl_single (bad : ℕ) (xs rem : List ℕ) (hnd : rem.Nodup) :
    xs.foldl (fun r c => if (c == bad) then r.erase c else r) rem =
      if xs.contains bad then rem.erase bad else rem := by
  induction xs generalizing rem with
  | nil => simp
  | cons x xs ih =>
    simp only [List.foldl_cons, List.contains_cons]
    by_cases hx : x = bad
    · subst hx
      rw [if_pos (by simp), ih (rem.erase x) (hnd.erase x)]
      by_cases hmem : xs.contains x
      · rw [if_pos hmem, if_pos (by simp)]
        rw [List.erase_of_not_mem
          (fun hc => absurd ((hnd.mem_erase_iff).mp hc).1 (by simp))]
      · rw [if_neg hmem, if_pos (by simp)]
    · rw [if_neg (by simp [hx]), ih rem hnd]
      have : (x == bad) = false := by simp [hx]
      have hbx : ¬(bad = x) := fun hbx => hx hbx.symm
      simp [this, hbx]

/-- C7.  Broadcast failure isolation: on a fanout tick where sending to
exactly the client `bad` fails, the resulting client set is the original
set minus `bad` alone, the delivered list is exactly the other clients,
and in particular every other client still receives the snapshot; the
fold (the broadcast loop) is total — a per-client failure never aborts
it. -/
theorem broadcast_isolation (clients : List ℕ) (bad : ℕ)
    (hnd : clients.Nodup) :
    (broadcast (fun c => c == bad) clients).1 = clients.erase bad ∧
      (broadcast (fun c => c == bad) clients).2 =
        clients.filter (fun c => !(c == bad)) ∧
      ∀ c ∈ clients, c ≠ bad →
        c ∈ (broadcast (fun c => c == bad) clients).2 := by
  refine ⟨?_, ?_, ?_⟩
  · rw [broadcast, broadcast_foldl_fst,
      erase_foldl_single bad clients clients hnd]
    by_cases hmem : clients.contains bad
    · rw [if_pos hmem]
    · rw [if_neg hmem,
        List.erase_of_not_mem (by simpa using hmem)]
  · rw [broadcast, broadcast_foldl_snd]
    simp
  · intro c hc hne
    rw [broadcast, broadcast_foldl_snd]
    simp only [List.nil_append, List.mem_filter]
    exact ⟨hc, by simp [hne]⟩

/-- Witness for C7: with clients {1, 2, 3} and sends to client 2
failing, the tick leaves {1, 3} connected and delivers to 1 and 3. -/
theorem broadcast_isolation_witness :
    (broadcast (fun c => c == 2) [1, 2, 3]).1 = [1, 2, 3].erase 2 ∧
      (broadcast (fun c => c == 2) [1, 2, 3]).2 =
        [1, 2, 3].filter (fun c => !(c == 2)) :=
  ⟨(broadcast_isolation [1, 2, 3] 2 (by decide)).1,
    (broadcast_isolation [1, 2, 3] 2 (by decide)).2.1⟩

/-! ## Serial line format (lora.py lines 65-71, joystick.py lines 87-94,
main.py line 134) -/

/-- `GamepadReader._normalize` (joystick.py lines 87-94): map a raw axis
sample in `[lo, hi]` to `[-1, 1]`, zero the dead zone, round to 3
decimal places. -/
def pad_normalize (dead_zone val lo hi : ℚ) : ℚ :=
  let span := hi - lo
  if span = 0 then 0
  else
    let n := (val - lo) / span * 2 - 1
    if |n| < dead_zone then 0 else round3 n

/-- The character for a decimal digit. -/
def digitChar (d : ℕ) : Char := Char.ofNat (48 + d % 10)

/-- The fractional part of the decimal rendering of `r / 1000`
(`0 ≤ r < 1000`), with trailing zeros trimmed the way Python prints a
3-decimal float, always at least one digit. -/
def fracDigits (r : ℕ) : List Char :=
  if r = 0 then ['0']
  else if r % 100 = 0 then [digitChar (r / 100)]
  else if r % 10 = 0 then
    [digitChar (r / 100), digitChar (r / 10 % 10)]
  else
    [digitChar (r / 100), digitChar (r / 10 % 10), digitChar (r % 10)]

/-- Decimal rendering (as the Python f-string prints a float rounded to
3 decimal places) of a rational that is a multiple of 1/1000: optional
sign, integer digits, a dot, then 1 to 3 fractional digits. -/
def fmtQ3 (q : ℚ) : List Char :=
  let n : ℤ := round (q * 1000)
  let sign : List Char := if n < 0 then ['-'] else []
  let m := n.natAbs
  sign ++ Nat.toDigits 10 (m / 1000) ++ ['.'] ++ fracDigits (m % 1000)

/-- CRLF line terminator. -/
def crlf : List Char := ['\r', '\n']

/-- `LoraLink.write_line` (lora.py lines 65-71): append "\r\n" unless
the payload already ends with it, then write the bytes. -/
def write_line (l : List Char) : List Char :=
  if crlf <:+ l then l else l ++ crlf

/-- The serial bytes produced for one transmitted command: the payload
`f"{v_eff},{w_eff}"` passed through `write_line`. -/
def tx_line (v w : ℚ) : List Char := write_line (fmtQ3 v ++ [','] ++ fmtQ3 w)

lemma digitChar_ne_lf (d : ℕ) : digitChar d ≠ '\n' := by
  unfold digitChar
  have h : d % 10 < 10 := Nat.mod_lt _ (by norm_num)
  set k := d % 10 with hk
  clear hk
  interval_cases k <;> decide

lemma fracDigits_getLast (r : ℕ) :
    ∃ d, (fracDigits r).getLast? = some (digitChar d) := by
  unfold fracDigits
  split_ifs
  · exact ⟨0, rfl⟩
  · exact ⟨r / 100, rfl⟩
  · exact ⟨r / 10 % 10, rfl⟩
  · exact ⟨r % 10, rfl⟩

lemma fmtQ3_getLast (q : ℚ) :
    ∃ d, (fmtQ3 q).getLast? = some (digitChar d) := by
  obtain ⟨d, hd⟩ := fracDigits_getLast ((round (q * 1000)).natAbs % 1000)
  refine ⟨d, ?_⟩
  unfold fmtQ3
  simp only [List.append_assoc, List.getLast?_append, hd]
  rfl

lemma not_crlf_suffix_of_digit_last (l : List Char) (d : ℕ)
    (h : l.getLast? = some (digitChar d)) : ¬ crlf <:+ l := by
  rintro ⟨u, hu⟩
  rw [← hu, crlf, List.getLast?_append] at h
  simp at h
  exact digitChar_ne_lf d h.symm

lemma round3_abs_le_one {x : ℚ} (hx : |x| ≤ 1) : |round3 x| ≤ 1 := by
  rw [abs_le] at hx
  have h1 : ((-1000 : ℤ) : ℚ) ≤ x * 1000 := by push_cast; nlinarith [hx.1]
  have h2 : x * 1000 ≤ ((1000 : ℤ) : ℚ) := by push_cast; nlinarith [hx.2]
  have hlo : (-1000 : ℤ) ≤ round (x * 1000) := by
    have hr := round_mono h1
    rwa [round_intCast] at hr
  have hhi : round (x * 1000) ≤ (1000 : ℤ) := by
    have hr := round_mono h2
    rwa [round_intCast] at hr
  unfold round3
  rw [abs_le]
  constructor
  · have e1 : (-1 : ℚ) = (-1000 : ℚ) / 1000 := by norm_num
    rw [e1]
    gcongr
    exact_mod_cast hlo
  · have e2 : (1 : ℚ) = (1000 : ℚ) / 1000 := by norm_num
    rw [e2]
    gcongr
    exact_mod_cast hhi

lemma pad_normalize_bounds (dz val lo hi : ℚ) (hlo : lo ≤ val)
    (hhi : val ≤ hi) :
    |pad_normalize dz val lo hi| ≤ 1 ∧
      ∃ k : ℤ, pad_normalize dz val lo hi = (k : ℚ) / 1000 := by
  unfold pad_normalize
  dsimp only
  split_ifs with h1 h2
  · exact ⟨by norm_num, ⟨0, by norm_num⟩⟩
  · exact ⟨by norm_num, ⟨0, by norm_num⟩⟩
  · have hspan : 0 < hi - lo :=
      lt_of_le_of_ne (by linarith) (Ne.symm h1)
    have hn1 : (val - lo) / (hi - lo) ≤ 1 := by
      have e : (1 : ℚ) = (hi - lo) / (hi - lo) := (div_self h1).symm
      rw [e]
      gcongr
    have hn0 : 0 ≤ (val - lo) / (hi - lo) :=
      div_nonneg (by linarith) (le_of_lt hspan)
    have habs : |(val - lo) / (hi - lo) * 2 - 1| ≤ 1 := by
      rw [abs_le]
      constructor <;> nlinarith
    exact ⟨round3_abs_le_one habs,
      ⟨round (((val - lo) / (hi - lo) * 2 - 1) * 1000), rfl⟩⟩

lemma tx_line_eq (v w : ℚ) :
    tx_line v w = fmtQ3 v ++ [','] ++ fmtQ3 w ++ crlf := by
  unfold tx_line write_line
  obtain ⟨d, hd⟩ := fmtQ3_getLast w
  have hlast : (fmtQ3 v ++ [','] ++ fmtQ3 w).getLast? = some (digitChar d) := by
    rw [List.getLast?_append, hd]
    rfl
  rw [if_neg (not_crlf_suffix_of_digit_last _ d hlast)]

lemma sender_tick_sends (cfg : ModeCfg) (hb_timeout now last_hb v_raw w_raw : ℚ)
    (s : SenderState) (hsleep : s.sleep = false)
    (hfresh : now - last_hb ≤ hb_timeout) :
    (sender_tick cfg hb_timeout now last_hb v_raw w_raw s).2 =
      some (round3 (v_raw * (if s.speed_plus then cfg.speed_plus_scale
        else cfg.speed_default_scale)), w_raw) := by
  unfold sender_tick
  simp only [hsleep, Bool.false_eq_true, if_false]
  rw [if_neg (not_lt.mpr hfresh)]

/-- C5, amended.  On a transmitting tick (not sleeping, heartbeat fresh)
fed a normalized turn axis and a forward axis in [-1, 1], with both
configured speed scales of magnitude at most 1 (the defaults are 0.70
and 1.00), the emitted serial line is exactly the rendered pair followed
by CRLF, and both transmitted values lie in [-1, 1] and are multiples of
1/1000 (3-decimal values). -/
theorem line_format_in_range (cfg : ModeCfg)
    (hb_timeout now last_hb dz val lo hi v_raw : ℚ) (s : SenderState)
    (hsleep : s.sleep = false) (hfresh : now - last_hb ≤ hb_timeout)
    (hv : |v_raw| ≤ 1) (hlo : lo ≤ val) (hhi : val ≤ hi)
    (hdft : |cfg.speed_default_scale| ≤ 1)
    (hpls : |cfg.speed_plus_scale| ≤ 1) :
    ∃ v w : ℚ,
      (sender_tick cfg hb_timeout now last_hb v_raw
          (pad_normalize dz val lo hi) s).2 = some (v, w) ∧
        tx_line v w = fmtQ3 v ++ [','] ++ fmtQ3 w ++ crlf ∧
        |v| ≤ 1 ∧ |w| ≤ 1 ∧
        (∃ k : ℤ, v = (k : ℚ) / 1000) ∧ (∃ k : ℤ, w = (k : ℚ) / 1000) := by
  refine ⟨round3 (v_raw * (if s.speed_plus then cfg.speed_plus_scale
      else cfg.speed_default_scale)),
    pad_normalize dz val lo hi,
    sender_tick_sends cfg hb_timeout now last_hb v_raw _ s hsleep hfresh,
    tx_line_eq _ _, ?_,
    (pad_normalize_bounds dz val lo hi hlo hhi).1,
    ⟨round ((v_raw * (if s.speed_plus then cfg.speed_plus_scale
      else cfg.speed_default_scale)) * 1000), rfl⟩,
    (pad_normalize_bounds dz val lo hi hlo hhi).2⟩
  apply round3_abs_le_one
  by_cases hsp : s.speed_plus = true
  · rw [if_pos hsp, abs_mul]
    calc |v_raw| * |cfg.speed_plus_scale| ≤ 1 * 1 :=
      mul_le_mul hv hpls (abs_nonneg _) zero_le_one
    _ = 1 := by norm_num
  · rw [if_neg hsp, abs_mul]
    calc |v_raw| * |cfg.speed_default_scale| ≤ 1 * 1 :=
      mul_le_mul hv hdft (abs_nonneg _) zero_le_one
    _ = 1 := by norm_num

/-- Witness for C5 (amended): default config (scales 0.70 and 1.00),
fresh heartbeat, full-forward stick, turn axis sample 128 on a 0..255
axis with dead zone 0.05 — the tick emits a line of the guaranteed
shape and range. -/
theorem line_format_in_range_witness :
    ∃ v w : ℚ,
      (sender_tick ⟨7 / 10, 1⟩ 15 1 1 1
          (pad_normalize (5 / 100) 128 0 255)
          ⟨false, false, 0, 0, 0, []⟩).2 = some (v, w) ∧
        tx_line v w = fmtQ3 v ++ [','] ++ fmtQ3 w ++ crlf ∧
        |v| ≤ 1 ∧ |w| ≤ 1 ∧
        (∃ k : ℤ, v = (k : ℚ) / 1000) ∧ (∃ k : ℤ, w = (k : ℚ) / 1000) :=
  line_format_in_range ⟨7 / 10, 1⟩ 15 1 1 (5 / 100) 128 0 255 1
    ⟨false, false, 0, 0, 0, []⟩ rfl (by norm_num) (by norm_num [abs_le])
    (by norm_num) (by norm_num) (by norm_num [abs_le]) (by norm_num [abs_le])

/-- C5, counterexample.  The configuration surface does not bound the
speed scales: with `speed_plus_scale = 2` configured and Speed+ active,
a full-forward stick makes the sender emit the line value `v = 2`,
outside [-1, 1] — so the claim does not hold for every configurable
scale. -/
theorem line_range_cex :
    (sender_tick ⟨7 / 10, 2⟩ 15 1 1 1 0
        ⟨false, true, 0, 0, 0, []⟩).2 = some (2, 0) ∧
      ¬(|(2 : ℚ)| ≤ 1) := by
  constructor
  · rw [sender_tick_sends ⟨7 / 10, 2⟩ 15 1 1 1 0
      ⟨false, true, 0, 0, 0, []⟩ rfl (by norm_num)]
    norm_num [round3]
  · norm_num
